import Mathlib

/-!
# LawVisor Risk Aggregation Engine — verification development

Shallow embedding of `backend/core/risk_engine.py` (class `RiskEngine`) together
with the input data model it consumes (`backend/core/rag_engine.py` and
`backend/core/clause_extractor.py`).

Modelling conventions:
* Python floats are modelled as exact rationals (`ℚ`); the engine only performs
  field arithmetic, comparisons, `min`/`max` and division on them.
* Python dict lookup with a default (`dict.get k d`) is modelled by equality
  tests against the literal keys; building a dict from a list and then looking
  a key up (`{a.clause_id: a for a in analyses}.get(cid)`) is modelled by a
  left fold in which a later binding overwrites an earlier one.
* `sorted(xs, key=f, reverse=True)` and `xs.sort(key=f, reverse=True)` are
  CPython stable sorts; they are modelled by `List.insertionSort` with the
  relation `f b ≤ f a`, which inserts each earlier element in front of
  later elements of equal key and is therefore the same stable descending sort.
* Python `set` iteration order is unspecified; where the source materialises a
  set into a list (`top_issues` of a category and the summary violations) the
  model uses first-occurrence order.  No theorem below depends on those fields.
* The wall-clock field `analyzed_at` and the natural-language `summary` string
  of the report carry no specified computational content for the properties
  verified here and are omitted from the report record.
* The engine never raises: totality of every definition below is the model of
  the "never throw" contract.
-/

namespace LawVisor

/-- `RiskLevel` enum of `risk_engine.py`. -/
inductive RiskLevel where
  | critical
  | high
  | medium
  | low
  | minimal
deriving DecidableEq, Repr

/-- `RetrievedContext` dataclass of `rag_engine.py` (a matched regulation). -/
structure RetrievedContext where
  regulation_id : String
  article_number : String
  title : String
  text : String
  relevance_score : ℚ
  source_url : String
  regulation_type : String
deriving DecidableEq, Repr

/-- `ComplianceAnalysis` dataclass of `rag_engine.py`. -/
structure ComplianceAnalysis where
  clause_id : String
  clause_type : String
  clause_text : String
  is_compliant : Bool
  risk_level : String
  risk_score : ℚ
  violated_regulations : List String
  matched_regulations : List RetrievedContext
  explanation : String
  reasoning_chain : List String
  recommendations : List String
  confidence : ℚ
deriving Repr

/-- `ExtractedClause` dataclass of `clause_extractor.py`.  The engine only ever
reads `clause.clause_type.value`, a string of the `ClauseType` enum, so the
category is carried as that string.  The recursive `sub_clauses` and the
free-form `metadata` dict are never read by the risk engine and are omitted. -/
structure ExtractedClause where
  clause_id : String
  clause_type : String
  title : String
  raw_text : String
  normalized_text : String
  page_number : Nat
  start_position : Nat
  end_position : Nat
  confidence : ℚ
deriving Repr

/-- One entry of a `contributing_factors` list of a `ClauseRisk`. -/
structure ContributingFactor where
  factor : String
  value : ℚ
  description : String
deriving DecidableEq, Repr

/-- `ClauseRisk` dataclass of `risk_engine.py`. -/
structure ClauseRisk where
  clause_id : String
  clause_type : String
  clause_title : String
  clause_text_preview : String
  risk_score : ℚ
  risk_level : RiskLevel
  contributing_factors : List ContributingFactor
  violated_regulations : List String
  recommendations : List String
  explanation : String
  confidence : ℚ
deriving DecidableEq, Repr

/-- `CategoryRisk` dataclass of `risk_engine.py`. -/
structure CategoryRisk where
  category : String
  category_display : String
  risk_score : ℚ
  risk_level : RiskLevel
  clause_count : Nat
  high_risk_clauses : Nat
  top_issues : List String
  clauses : List ClauseRisk
deriving Repr

/-- One citation dict produced by `_collect_citations`. -/
structure Citation where
  regulation_id : String
  title : String
  source_url : String
  regulation_type : String
deriving DecidableEq, Repr

/-- The `scoring_breakdown` dict built by `_calculate_overall_score`
(non-empty case).  The source rounds the displayed rationals to two decimals
with `round(x, 2)`; `round2` below models that display rounding. -/
structure ScoringBreakdown where
  weighted_average_value : ℚ
  weighted_average_weight : ℚ
  weighted_average_contribution : ℚ
  max_clause_score : ℚ
  max_penalty : ℚ
  high_risk_count : Nat
  total_clauses : Nat
  density : ℚ
  density_penalty : ℚ
  formula : String
deriving Repr

/-- `ContractRiskReport` dataclass of `risk_engine.py` (see the module comment
for the two omitted presentation-only fields).  An empty `scoring_breakdown`
dict is modelled by `none`. -/
structure ContractRiskReport where
  document_id : String
  overall_risk_score : ℚ
  overall_risk_level : RiskLevel
  total_clauses_analyzed : Nat
  high_risk_clause_count : Nat
  medium_risk_clause_count : Nat
  low_risk_clause_count : Nat
  category_risks : List CategoryRisk
  top_risks : List ClauseRisk
  all_clause_risks : List ClauseRisk
  citations : List Citation
  confidence : ℚ
  scoring_breakdown : Option ScoringBreakdown
deriving Repr

/-- The `CLAUSE_TYPE_WEIGHTS` dict of `risk_engine.py` (distinct keys, so an
association list is an exact model). -/
def CLAUSE_TYPE_WEIGHTS : List (String × ℚ) :=
  [("data_protection", 1.5),
    ("liability", 1.4),
    ("indemnification", 1.4),
    ("confidentiality", 1.3),
    ("intellectual_property", 1.3),
    ("jurisdiction", 1.2),
    ("termination", 1.2),
    ("dispute_resolution", 1.1),
    ("warranties", 1.1),
    ("payment_terms", 1.0),
    ("force_majeure", 1.0),
    ("governing_law", 1.0),
    ("amendment", 0.9),
    ("assignment", 0.9),
    ("severability", 0.8),
    ("notices", 0.8),
    ("entire_agreement", 0.7),
    ("counterparts", 0.5),
    ("unknown", 1.0)]

/-- `CLAUSE_TYPE_WEIGHTS.get(t, 1.0)` of `risk_engine.py`: the clause type
importance weight lookup with default 1.0 for unknown keys. -/
def clauseWeight (t : String) : ℚ :=
  match CLAUSE_TYPE_WEIGHTS.find? (fun p => p.1 == t) with
  | some p => p.2
  | none => 1.0

/-- The `CATEGORY_DISPLAY_NAMES` dict of `risk_engine.py`. -/
def CATEGORY_DISPLAY_NAMES : List (String × String) :=
  [("data_protection", "Data Protection & Privacy"),
    ("liability", "Liability & Risk Allocation"),
    ("indemnification", "Indemnification"),
    ("confidentiality", "Confidentiality"),
    ("intellectual_property", "Intellectual Property"),
    ("jurisdiction", "Jurisdiction & Venue"),
    ("termination", "Termination Rights"),
    ("dispute_resolution", "Dispute Resolution"),
    ("warranties", "Warranties & Representations"),
    ("payment_terms", "Payment Terms"),
    ("force_majeure", "Force Majeure"),
    ("governing_law", "Governing Law"),
    ("amendment", "Amendment Provisions"),
    ("assignment", "Assignment Rights"),
    ("severability", "Severability"),
    ("notices", "Notices"),
    ("entire_agreement", "Entire Agreement"),
    ("counterparts", "Counterparts"),
    ("unknown", "Other Provisions")]

/-- `CATEGORY_DISPLAY_NAMES.get(c, c)` of `risk_engine.py`. -/
def categoryDisplayName (c : String) : String :=
  match CATEGORY_DISPLAY_NAMES.find? (fun p => p.1 == c) with
  | some p => p.2
  | none => c

/-- `_score_to_level` of `risk_engine.py`. -/
def scoreToLevel (score : ℚ) : RiskLevel :=
  if score ≥ 80 then .critical
  else if score ≥ 60 then .high
  else if score ≥ 40 then .medium
  else if score ≥ 20 then .low
  else .minimal

/-- Membership of a level in `[RiskLevel.CRITICAL, RiskLevel.HIGH]`, the test
the source repeats for high-risk counting. -/
def isHighOrCritical (l : RiskLevel) : Bool :=
  l == RiskLevel.critical || l == RiskLevel.high

/-- `{a.clause_id: a for a in analyses}.get(cid)` of `_calculate_clause_risks`:
dict construction lets a later analysis with the same `clause_id` overwrite an
earlier one, so the fold keeps the last match. -/
def lookupAnalysis (analyses : List ComplianceAnalysis) (cid : String) :
    Option ComplianceAnalysis :=
  analyses.foldl (fun acc a => if a.clause_id = cid then some a else acc) none

/-- Body of the per-clause loop of `_calculate_clause_risks`: one clause plus
the result of the analysis lookup give one `ClauseRisk`. -/
def clauseRiskOf (clause : ExtractedClause) (analysis : Option ComplianceAnalysis) :
    ClauseRisk :=
  match analysis with
  | some a =>
      let base := a.risk_score
      let weight := clauseWeight clause.clause_type
      let weighted := min 100 (base * weight)
      let cf := 0.5 + a.confidence * 0.5
      let final := weighted * cf
      { clause_id := clause.clause_id
        clause_type := clause.clause_type
        clause_title := clause.title
        clause_text_preview := clause.raw_text.take 300 ++ "..."
        risk_score := final
        risk_level := scoreToLevel final
        contributing_factors :=
          [⟨"Base Compliance Score", base,
              "Score from regulatory compliance analysis"⟩,
            ⟨"Clause Type Weight", weight,
              "Importance weight for " ++ clause.clause_type⟩,
            ⟨"Confidence Factor", cf,
              "Adjustment based on analysis confidence"⟩]
        violated_regulations := a.violated_regulations
        recommendations := a.recommendations
        explanation := a.explanation
        confidence := a.confidence }
  | none =>
      { clause_id := clause.clause_id
        clause_type := clause.clause_type
        clause_title := clause.title
        clause_text_preview := clause.raw_text.take 300 ++ "..."
        risk_score := 50
        risk_level := RiskLevel.medium
        contributing_factors :=
          [⟨"Missing Analysis", 50, "Default score - analysis not available"⟩]
        violated_regulations := []
        recommendations := ["Manual review recommended"]
        explanation := "Compliance analysis not available for this clause."
        confidence := 0 }

/-- `_calculate_clause_risks` of `risk_engine.py`. -/
def calculateClauseRisks (clauses : List ExtractedClause)
    (analyses : List ComplianceAnalysis) : List ClauseRisk :=
  clauses.map (fun c => clauseRiskOf c (lookupAnalysis analyses c.clause_id))

/-- The stable descending order used by all three sorts of the source
(`sorted(..., key=score, reverse=True)` and `list.sort` alike). -/
def scoreDescRel {α : Type} (key : α → ℚ) (a b : α) : Prop :=
  key b ≤ key a

instance {α : Type} (key : α → ℚ) : DecidableRel (scoreDescRel key) :=
  fun a b => inferInstanceAs (Decidable (key b ≤ key a))

instance {α : Type} (key : α → ℚ) : IsTotal α (scoreDescRel key) :=
  ⟨fun a b => le_total (key b) (key a)⟩

instance {α : Type} (key : α → ℚ) : IsTrans α (scoreDescRel key) :=
  ⟨fun _ _ _ hab hbc => le_trans hbc hab⟩

/-- First-occurrence order of the `categories` dict keys built by
`_aggregate_by_category` (Python dicts preserve insertion order). -/
def categoryOrder (rs : List ClauseRisk) : List String :=
  rs.foldl (fun acc r => if r.clause_type ∈ acc then acc else acc ++ [r.clause_type]) []

/-- First-occurrence deduplication keeping input order.  Used to determinise
the `list(set(...))` materialisations of the source (see the module comment)
and as the specification-side description of citation deduplication. -/
def dedupByFirst {α : Type} (key : α → String) : List α → List α
  | [] => []
  | x :: xs => x :: dedupByFirst key (xs.filter fun y => key y ≠ key x)
termination_by l => l.length
decreasing_by
  simp only [List.length_cons]
  exact Nat.lt_succ_of_le (List.length_filter_le _ _)

/-- Body of the per-category loop of `_aggregate_by_category`: build the
`CategoryRisk` of one category from the clause risks of that category. -/
def categoryRiskFor (rs : List ClauseRisk) (category : String) : CategoryRisk :=
  let risks := rs.filter (fun r => r.clause_type = category)
  let total_weight := (risks.map (fun r => clauseWeight r.clause_type)).sum
  let weighted_sum := (risks.map (fun r => r.risk_score * clauseWeight r.clause_type)).sum
  let avg_score := if total_weight > 0 then weighted_sum / total_weight else 0
  let high_risk := risks.countP (fun r => isHighOrCritical r.risk_level)
  let sorted_risks := List.insertionSort (scoreDescRel ClauseRisk.risk_score) risks
  let top_issues_raw := (sorted_risks.take 3).foldl
    (fun acc r => if r.violated_regulations ≠ [] then acc ++ r.violated_regulations.take 2 else acc) []
  let top_issues := (dedupByFirst id top_issues_raw).take 5
  { category := category
    category_display := categoryDisplayName category
    risk_score := avg_score
    risk_level := scoreToLevel avg_score
    clause_count := risks.length
    high_risk_clauses := high_risk
    top_issues := top_issues
    clauses := risks }

/-- `_aggregate_by_category` of `risk_engine.py`: group by clause type in
first-appearance order and sort the category list by score descending
(stable). -/
def aggregateByCategory (rs : List ClauseRisk) : List CategoryRisk :=
  List.insertionSort (scoreDescRel CategoryRisk.risk_score)
    ((categoryOrder rs).map (categoryRiskFor rs))

/-- `sum(CLAUSE_TYPE_WEIGHTS.get(r.clause_type, 1.0) for r in clause_risks)`. -/
def totalWeight (rs : List ClauseRisk) : ℚ :=
  (rs.map (fun r => clauseWeight r.clause_type)).sum

/-- `sum(r.risk_score * CLAUSE_TYPE_WEIGHTS.get(r.clause_type, 1.0) ...)`. -/
def weightedSum (rs : List ClauseRisk) : ℚ :=
  (rs.map (fun r => r.risk_score * clauseWeight r.clause_type)).sum

/-- Factor 1 of `_calculate_overall_score` (guarded weighted average). -/
def weightedAvg (rs : List ClauseRisk) : ℚ :=
  if totalWeight rs > 0 then weightedSum rs / totalWeight rs else 0

/-- `max(r.risk_score for r in clause_risks)`; only ever evaluated on a
non-empty list by the source (the empty case returns early). -/
def maxRisk : List ClauseRisk → ℚ
  | [] => 0
  | r :: rest => rest.foldl (fun m x => max m x.risk_score) r.risk_score

/-- Factor 2 of `_calculate_overall_score`. -/
def maxPenalty (rs : List ClauseRisk) : ℚ :=
  if maxRisk rs > weightedAvg rs then (maxRisk rs - weightedAvg rs) * 0.3 else 0

/-- The high-risk clause count (levels critical or high). -/
def highRiskCount (rs : List ClauseRisk) : Nat :=
  rs.countP (fun r => isHighOrCritical r.risk_level)

/-- Factor 3 of `_calculate_overall_score` (high-risk density). -/
def density (rs : List ClauseRisk) : ℚ :=
  (highRiskCount rs : ℚ) / (rs.length : ℚ)

/-- The combined pre-clamp overall value of `_calculate_overall_score`. -/
def preClampOverall (rs : List ClauseRisk) : ℚ :=
  weightedAvg rs * 0.6 + maxPenalty rs + density rs * 20

/-- `round(x, 2)` used by the source when filling the breakdown dict
(display-only; no verified property reads these fields). -/
def round2 (x : ℚ) : ℚ :=
  (round (x * 100) : ℤ) / 100

/-- `_calculate_overall_score` of `risk_engine.py`: the clamped overall score
together with the scoring breakdown; `(0, {})` on an empty clause list. -/
def overallScoreAndBreakdown (rs : List ClauseRisk) : ℚ × Option ScoringBreakdown :=
  if rs = [] then (0, none)
  else
    (min 100 (max 0 (preClampOverall rs)),
      some
        { weighted_average_value := round2 (weightedAvg rs)
          weighted_average_weight := 0.6
          weighted_average_contribution := round2 (weightedAvg rs * 0.6)
          max_clause_score := round2 (maxRisk rs)
          max_penalty := round2 (maxPenalty rs)
          high_risk_count := highRiskCount rs
          total_clauses := rs.length
          density := round2 (density rs)
          density_penalty := round2 (density rs * 20)
          formula := "overall = (weighted_avg x 0.6) + max_penalty + density_penalty" })

/-- The overall score alone. -/
def overallScore (rs : List ClauseRisk) : ℚ :=
  (overallScoreAndBreakdown rs).1

/-- The citation dict built for one matched regulation. -/
def mkCitation (reg : RetrievedContext) : Citation :=
  ⟨reg.regulation_id, reg.title, reg.source_url, reg.regulation_type⟩

/-- The loop body of `_collect_citations`: state is `(seen_ids, citations)`. -/
def citationStep (st : List String × List Citation) (reg : RetrievedContext) :
    List String × List Citation :=
  if reg.regulation_id ∈ st.1 then st
  else (st.1 ++ [reg.regulation_id], st.2 ++ [mkCitation reg])

/-- `_collect_citations` of `risk_engine.py`: nested loop over the analyses and
their matched regulations with a `seen_ids` set. -/
def collectCitations (analyses : List ComplianceAnalysis) : List Citation :=
  (analyses.foldl (fun st a => a.matched_regulations.foldl citationStep st) ([], [])).2

/-- Specification-side description of the citation list (section 4.6 of the
specification, stated in its words): flatten all matched regulations in input
order, keep the first occurrence of each regulation identifier, and project
each kept regulation to its citation fields. -/
def citationsViaSpec (analyses : List ComplianceAnalysis) : List Citation :=
  (dedupByFirst (fun r => r.regulation_id)
      ((analyses.map ComplianceAnalysis.matched_regulations).flatten)).map mkCitation

/-- `calculate_risk_report` of `risk_engine.py` (the async wrapper is pure
apart from the timestamp). -/
def calculateRiskReport (document_id : String) (clauses : List ExtractedClause)
    (analyses : List ComplianceAnalysis) : ContractRiskReport :=
  let clause_risks := calculateClauseRisks clauses analyses
  let category_risks := aggregateByCategory clause_risks
  let overall := overallScoreAndBreakdown clause_risks
  let overall_level := scoreToLevel overall.1
  let top_risks := (List.insertionSort (scoreDescRel ClauseRisk.risk_score) clause_risks).take 5
  let high_risk_count := clause_risks.countP (fun r => isHighOrCritical r.risk_level)
  let medium_risk_count := clause_risks.countP (fun r => r.risk_level == RiskLevel.medium)
  let low_risk_count := clause_risks.countP
    (fun r => r.risk_level == RiskLevel.low || r.risk_level == RiskLevel.minimal)
  let avg_confidence :=
    if clause_risks = [] then 0
    else (clause_risks.map ClauseRisk.confidence).sum / (clause_risks.length : ℚ)
  { document_id := document_id
    overall_risk_score := overall.1
    overall_risk_level := overall_level
    total_clauses_analyzed := clause_risks.length
    high_risk_clause_count := high_risk_count
    medium_risk_clause_count := medium_risk_count
    low_risk_clause_count := low_risk_count
    category_risks := category_risks
    top_risks := top_risks
    all_clause_risks := clause_risks
    citations := collectCitations analyses
    confidence := avg_confidence
    scoring_breakdown := overall.2 }

/-! ## Basic facts about the weight table and the classifier -/

theorem clauseWeight_pos (t : String) : 0 < clauseWeight t := by
  unfold clauseWeight
  cases h : CLAUSE_TYPE_WEIGHTS.find? (fun p => p.1 == t) with
  | none => norm_num
  | some p =>
      have hp : p ∈ CLAUSE_TYPE_WEIGHTS := List.mem_of_find?_eq_some h
      fin_cases hp <;> norm_num

theorem clauseWeight_le (t : String) : clauseWeight t ≤ 1.5 := by
  unfold clauseWeight
  cases h : CLAUSE_TYPE_WEIGHTS.find? (fun p => p.1 == t) with
  | none => norm_num
  | some p =>
      have hp : p ∈ CLAUSE_TYPE_WEIGHTS := List.mem_of_find?_eq_some h
      fin_cases hp <;> norm_num

theorem scoreToLevel_spec (s : ℚ) :
    (scoreToLevel s = RiskLevel.critical ↔ 80 ≤ s) ∧
    (scoreToLevel s = RiskLevel.high ↔ 60 ≤ s ∧ s < 80) ∧
    (scoreToLevel s = RiskLevel.medium ↔ 40 ≤ s ∧ s < 60) ∧
    (scoreToLevel s = RiskLevel.low ↔ 20 ≤ s ∧ s < 40) ∧
    (scoreToLevel s = RiskLevel.minimal ↔ s < 20) := by
  unfold scoreToLevel
  split_ifs with h1 h2 h3 h4 <;>
    refine ⟨?_, ?_, ?_, ?_, ?_⟩ <;> constructor <;> intro h <;>
    (try obtain ⟨ha, hb⟩ := h) <;> simp_all <;> linarith

theorem isHighOrCritical_scoreToLevel (s : ℚ) :
    isHighOrCritical (scoreToLevel s) = true ↔ 60 ≤ s := by
  unfold isHighOrCritical scoreToLevel
  split_ifs with h1 h2 h3 h4 <;> simp_all
  all_goals linarith

/-- Every clause risk produced by the per-clause computation stores the level
obtained by classifying its stored score (the default path hard-codes
`medium` at score 50, which is what the classifier returns at 50). -/
theorem clauseRiskOf_level (c : ExtractedClause) (o : Option ComplianceAnalysis) :
    (clauseRiskOf c o).risk_level = scoreToLevel (clauseRiskOf c o).risk_score := by
  cases o with
  | none =>
      show RiskLevel.medium = scoreToLevel 50
      unfold scoreToLevel
      norm_num
  | some a => rfl

theorem totalWeight_nonneg (rs : List ClauseRisk) : 0 ≤ totalWeight rs := by
  unfold totalWeight
  apply List.sum_nonneg
  intro x hx
  simp only [List.mem_map] at hx
  obtain ⟨r, _, rfl⟩ := hx
  exact (clauseWeight_pos r.clause_type).le

theorem totalWeight_pos (rs : List ClauseRisk) (h : rs ≠ []) : 0 < totalWeight rs := by
  cases rs with
  | nil => exact absurd rfl h
  | cons r rest =>
      have h1 : 0 < clauseWeight r.clause_type := clauseWeight_pos _
      have h2 : 0 ≤ totalWeight rest := totalWeight_nonneg rest
      unfold totalWeight at h2 ⊢
      simp only [List.map_cons, List.sum_cons]
      linarith

/-! ## Sample inputs used by concrete witnesses and counterexamples -/

/-- A concrete clause with the given identifier and category. -/
def sampleClause (cid ctype : String) : ExtractedClause :=
  { clause_id := cid
    clause_type := ctype
    title := "Sample clause"
    raw_text := "Sample clause text."
    normalized_text := "sample clause text."
    page_number := 1
    start_position := 0
    end_position := 19
    confidence := 0.9 }

/-- A concrete compliance analysis with the given identifier, risk score and
confidence. -/
def sampleAnalysis (cid : String) (score conf : ℚ) : ComplianceAnalysis :=
  { clause_id := cid
    clause_type := "x"
    clause_text := "Sample clause text."
    is_compliant := false
    risk_level := "high"
    risk_score := score
    violated_regulations := ["GDPR-5"]
    matched_regulations := []
    explanation := "Sample explanation."
    reasoning_chain := []
    recommendations := ["Sample recommendation."]
    confidence := conf }

/-- An analysis found by the dict lookup is an element of the analyses list. -/
theorem lookupAnalysis_mem (analyses : List ComplianceAnalysis) (cid : String)
    (a : ComplianceAnalysis) (h : lookupAnalysis analyses cid = some a) :
    a ∈ analyses := by
  have aux : ∀ (l : List ComplianceAnalysis) (acc : Option ComplianceAnalysis),
      l.foldl (fun acc x => if x.clause_id = cid then some x else acc) acc = some a →
      acc = some a ∨ a ∈ l := by
    intro l
    induction l with
    | nil => intro acc h; exact Or.inl h
    | cons b t ih =>
        intro acc h
        rcases ih _ h with hstep | hmem
        · by_cases hb : b.clause_id = cid
          · simp [hb] at hstep
            exact Or.inr (hstep ▸ List.mem_cons_self b t)
          · simp [hb] at hstep
            exact Or.inl hstep
        · exact Or.inr (List.mem_cons_of_mem b hmem)
  rcases aux analyses none h with hnone | hmem
  · exact absurd hnone (by simp)
  · exact hmem

/-- C4: a clause with no compliance finding never makes the engine throw (the
computation is total) and is scored by the explicit degraded-input default:
score 50, level medium, confidence 0, exactly one contributing factor named
"Missing Analysis", the unavailability explanation and the manual-review
recommendation. -/
theorem missing_finding_default (cls : List ExtractedClause)
    (ans : List ComplianceAnalysis) (c : ExtractedClause)
    (hc : c ∈ cls) (h : lookupAnalysis ans c.clause_id = none) :
    clauseRiskOf c (lookupAnalysis ans c.clause_id) ∈ calculateClauseRisks cls ans ∧
    (clauseRiskOf c (lookupAnalysis ans c.clause_id)).risk_score = 50 ∧
    (clauseRiskOf c (lookupAnalysis ans c.clause_id)).risk_level = RiskLevel.medium ∧
    (clauseRiskOf c (lookupAnalysis ans c.clause_id)).confidence = 0 ∧
    (clauseRiskOf c (lookupAnalysis ans c.clause_id)).contributing_factors =
      [⟨"Missing Analysis", 50, "Default score - analysis not available"⟩] ∧
    (clauseRiskOf c (lookupAnalysis ans c.clause_id)).explanation =
      "Compliance analysis not available for this clause." ∧
    (clauseRiskOf c (lookupAnalysis ans c.clause_id)).recommendations =
      ["Manual review recommended"] := by
  refine ⟨List.mem_map_of_mem _ hc, ?_, ?_, ?_, ?_, ?_, ?_⟩ <;> rw [h] <;> rfl

theorem missing_finding_default_witness :
    (clauseRiskOf (sampleClause "c9" "payment_terms")
        (lookupAnalysis ([] : List ComplianceAnalysis)
          (sampleClause "c9" "payment_terms").clause_id)).risk_score = 50 ∧
    (clauseRiskOf (sampleClause "c9" "payment_terms")
        (lookupAnalysis ([] : List ComplianceAnalysis)
          (sampleClause "c9" "payment_terms").clause_id)).risk_level = RiskLevel.medium :=
  ⟨(missing_finding_default [sampleClause "c9" "payment_terms"] [] _
      (List.mem_singleton_self _) rfl).2.1,
    (missing_finding_default [sampleClause "c9" "payment_terms"] [] _
      (List.mem_singleton_self _) rfl).2.2.1⟩

/-- Scenario A clause: category data_protection. -/
def scenarioClauseA : ExtractedClause := sampleClause "c1" "data_protection"

/-- Scenario A finding: base score 60, confidence 0.8. -/
def scenarioAnalysisA : ComplianceAnalysis := sampleAnalysis "c1" 60 0.8

/-- C2 (counterexample): the source never clamps the final clause score.  With
an upstream confidence of 2 (outside [0,1]) and base score 100 on a
weight-1.0 category, the stored risk score is 150, while the formula of the
claim — `weighted * confidence_factor` clamped to [0,100] — yields 100. -/
theorem clause_score_clamp_cex :
    (clauseRiskOf (sampleClause "c1" "payment_terms")
        (some (sampleAnalysis "c1" 100 2))).risk_score = 150 ∧
    min 100 (max 0
        (min 100 ((sampleAnalysis "c1" 100 2).risk_score *
            clauseWeight (sampleClause "c1" "payment_terms").clause_type) *
          (0.5 + (sampleAnalysis "c1" 100 2).confidence * 0.5))) = 100 ∧
    (clauseRiskOf (sampleClause "c1" "payment_terms")
        (some (sampleAnalysis "c1" 100 2))).risk_score ≠
      min 100 (max 0
        (min 100 ((sampleAnalysis "c1" 100 2).risk_score *
            clauseWeight (sampleClause "c1" "payment_terms").clause_type) *
          (0.5 + (sampleAnalysis "c1" 100 2).confidence * 0.5))) := by
  refine ⟨?_, ?_, ?_⟩ <;>
    simp [clauseRiskOf, clauseWeight, CLAUSE_TYPE_WEIGHTS, List.find?,
      sampleClause, sampleAnalysis] <;> norm_num

/-- C2 (amended): for every clause with a compliance finding the stored score
is `min(100, base * weight) * (0.5 + 0.5 * confidence)` with NO final clamp
(the clamp of the claim is vacuous for confidence in [0,1] and base ≥ 0);
in particular Scenario A — category data_protection (weight 1.5), base 60,
confidence 0.8 — yields score 81 and level critical. -/
theorem clause_score_formula :
    (∀ (c : ExtractedClause) (a : ComplianceAnalysis),
      (clauseRiskOf c (some a)).risk_score =
        min 100 (a.risk_score * clauseWeight c.clause_type) *
          (0.5 + a.confidence * 0.5)) ∧
    (clauseRiskOf scenarioClauseA (some scenarioAnalysisA)).risk_score = 81 ∧
    (clauseRiskOf scenarioClauseA (some scenarioAnalysisA)).risk_level =
      RiskLevel.critical := by
  refine ⟨fun c a => rfl, ?_, ?_⟩ <;>
    simp [clauseRiskOf, clauseWeight, CLAUSE_TYPE_WEIGHTS, List.find?,
      scenarioClauseA, scenarioAnalysisA, sampleClause, sampleAnalysis,
      scoreToLevel] <;> norm_num

/-- C3 (counterexample): out-of-range upstream values are NOT defensively
clamped.  A finding with risk score −100 (confidence 1) on a weight-1.0
category propagates to a stored clause risk score of −100, outside [0,100]. -/
theorem clause_range_cex :
    ((calculateRiskReport "doc" [sampleClause "c1" "payment_terms"]
          [sampleAnalysis "c1" (-100) 1]).all_clause_risks.map
        ClauseRisk.risk_score) = [-100] := by
  simp [calculateRiskReport, calculateClauseRisks, clauseRiskOf,
    lookupAnalysis, clauseWeight, CLAUSE_TYPE_WEIGHTS, List.find?,
    sampleClause, sampleAnalysis]
  norm_num

/-- C3 (amended): the engine is a total function (it raises no exception), and
whenever every upstream finding has confidence in [0,1] and a non-negative
risk score, every produced ClauseRisk has its risk score in [0,100]
(scores above 100 are capped by the `min(100, base * weight)` step, not by a
final clamp); out-of-range upstream values propagate unclamped, see the
counterexample. -/
theorem clause_scores_in_range (d : String) (cls : List ExtractedClause)
    (ans : List ComplianceAnalysis)
    (h : ∀ a ∈ ans, 0 ≤ a.confidence ∧ a.confidence ≤ 1 ∧ 0 ≤ a.risk_score) :
    ∀ r ∈ (calculateRiskReport d cls ans).all_clause_risks,
      0 ≤ r.risk_score ∧ r.risk_score ≤ 100 := by
  intro r hr
  have hr2 : r ∈ calculateClauseRisks cls ans := hr
  simp only [calculateClauseRisks, List.mem_map] at hr2
  obtain ⟨c, _, rfl⟩ := hr2
  cases hl : lookupAnalysis ans c.clause_id with
  | none => norm_num [clauseRiskOf]
  | some a =>
      obtain ⟨hc0, hc1, hs0⟩ := h a (lookupAnalysis_mem ans c.clause_id a hl)
      have hw : 0 < clauseWeight c.clause_type := clauseWeight_pos _
      have hmin0 : 0 ≤ min 100 (a.risk_score * clauseWeight c.clause_type) :=
        le_min (by norm_num) (mul_nonneg hs0 hw.le)
      have hmin1 : min 100 (a.risk_score * clauseWeight c.clause_type) ≤ 100 :=
        min_le_left _ _
      have hf0 : (0 : ℚ) ≤ 0.5 + a.confidence * 0.5 := by linarith
      have hf1 : 0.5 + a.confidence * 0.5 ≤ 1 := by linarith
      constructor
      · exact mul_nonneg hmin0 hf0
      · calc min 100 (a.risk_score * clauseWeight c.clause_type) *
              (0.5 + a.confidence * 0.5)
            ≤ 100 * 1 := mul_le_mul hmin1 hf1 hf0 (by norm_num)
          _ = 100 := by norm_num

theorem clause_scores_in_range_witness :
    (∀ a ∈ [sampleAnalysis "c1" 60 (0.8 : ℚ)],
      0 ≤ a.confidence ∧ a.confidence ≤ 1 ∧ 0 ≤ a.risk_score) ∧
    (∀ r ∈ (calculateRiskReport "doc" [sampleClause "c1" "data_protection"]
        [sampleAnalysis "c1" 60 0.8]).all_clause_risks,
      0 ≤ r.risk_score ∧ r.risk_score ≤ 100) :=
  ⟨by intro a ha
      simp only [List.mem_singleton] at ha
      subst ha
      norm_num [sampleAnalysis],
    clause_scores_in_range "doc" [sampleClause "c1" "data_protection"]
      [sampleAnalysis "c1" 60 0.8]
      (by intro a ha
          simp only [List.mem_singleton] at ha
          subst ha
          norm_num [sampleAnalysis])⟩

/-- Every category risk built by the per-category computation stores the level
obtained by classifying its stored score. -/
theorem categoryRiskFor_level (rs : List ClauseRisk) (cat : String) :
    (categoryRiskFor rs cat).risk_level = scoreToLevel (categoryRiskFor rs cat).risk_score :=
  rfl

/-- C5: the risk-level classifier maps a score to critical iff it is ≥ 80, to
high iff it is in [60,80), to medium iff in [40,60), to low iff in [20,40) and
to minimal iff below 20; the hard-coded medium of the missing-finding default
agrees with the classifier at score 50; and every clause risk, category risk
and the overall report level stores exactly the classifier applied to its
stored score. -/
theorem risk_level_single_source (d : String) (cls : List ExtractedClause)
    (ans : List ComplianceAnalysis) :
    (∀ s : ℚ,
      (scoreToLevel s = RiskLevel.critical ↔ 80 ≤ s) ∧
      (scoreToLevel s = RiskLevel.high ↔ 60 ≤ s ∧ s < 80) ∧
      (scoreToLevel s = RiskLevel.medium ↔ 40 ≤ s ∧ s < 60) ∧
      (scoreToLevel s = RiskLevel.low ↔ 20 ≤ s ∧ s < 40) ∧
      (scoreToLevel s = RiskLevel.minimal ↔ s < 20)) ∧
    scoreToLevel 50 = RiskLevel.medium ∧
    (∀ r ∈ (calculateRiskReport d cls ans).all_clause_risks,
      r.risk_level = scoreToLevel r.risk_score) ∧
    (∀ c ∈ (calculateRiskReport d cls ans).category_risks,
      c.risk_level = scoreToLevel c.risk_score) ∧
    (calculateRiskReport d cls ans).overall_risk_level =
      scoreToLevel (calculateRiskReport d cls ans).overall_risk_score := by
  refine ⟨scoreToLevel_spec, by norm_num [scoreToLevel], ?_, ?_, rfl⟩
  · intro r hr
    have hr2 : r ∈ calculateClauseRisks cls ans := hr
    simp only [calculateClauseRisks, List.mem_map] at hr2
    obtain ⟨c, _, rfl⟩ := hr2
    exact clauseRiskOf_level c _
  · intro c hc
    have hc2 : c ∈ aggregateByCategory (calculateClauseRisks cls ans) := hc
    unfold aggregateByCategory at hc2
    rw [List.mem_insertionSort] at hc2
    simp only [List.mem_map] at hc2
    obtain ⟨cat, _, rfl⟩ := hc2
    exact categoryRiskFor_level _ cat

theorem risk_level_single_source_witness :
    (clauseRiskOf (sampleClause "c1" "data_protection")
        (lookupAnalysis [sampleAnalysis "c1" 60 0.8]
          (sampleClause "c1" "data_protection").clause_id)).risk_level =
      scoreToLevel (clauseRiskOf (sampleClause "c1" "data_protection")
        (lookupAnalysis [sampleAnalysis "c1" 60 0.8]
          (sampleClause "c1" "data_protection").clause_id)).risk_score :=
  (risk_level_single_source "doc" [sampleClause "c1" "data_protection"]
      [sampleAnalysis "c1" 60 0.8]).2.2.1 _
    (List.mem_map_of_mem _ (List.mem_singleton_self _))

/-- Each clause risk lies in exactly one of the three count buckets, so the
three counters add up to the list length. -/
theorem countP_levels_sum (rs : List ClauseRisk) :
    rs.countP (fun r => isHighOrCritical r.risk_level)
      + rs.countP (fun r => r.risk_level == RiskLevel.medium)
      + rs.countP (fun r => r.risk_level == RiskLevel.low ||
          r.risk_level == RiskLevel.minimal)
      = rs.length := by
  induction rs with
  | nil => rfl
  | cons r t ih =>
      simp only [isHighOrCritical] at ih ⊢
      simp only [List.countP_cons, List.length_cons]
      cases hr : r.risk_level <;> simp [hr] <;> omega

/-- C6: in every report the high/critical count plus the medium count plus the
low/minimal count equals the total number of clauses analyzed. -/
theorem report_counts_sum (d : String) (cls : List ExtractedClause)
    (ans : List ComplianceAnalysis) :
    (calculateRiskReport d cls ans).high_risk_clause_count
      + (calculateRiskReport d cls ans).medium_risk_clause_count
      + (calculateRiskReport d cls ans).low_risk_clause_count
      = (calculateRiskReport d cls ans).total_clauses_analyzed :=
  countP_levels_sum (calculateClauseRisks cls ans)

theorem weightedAvg_eq (rs : List ClauseRisk) (hne : rs ≠ []) :
    weightedAvg rs = weightedSum rs / totalWeight rs := by
  unfold weightedAvg
  rw [if_pos (totalWeight_pos rs hne)]

theorem maxPenalty_eq (rs : List ClauseRisk) :
    maxPenalty rs = max 0 (maxRisk rs - weightedAvg rs) * 0.3 := by
  unfold maxPenalty
  split_ifs with h
  · rw [max_eq_right (by linarith)]
  · rw [max_eq_left (by linarith)]
    norm_num

/-- C1: for a non-empty clause list the overall contract score is
`clamp(A*0.6 + B + C, 0, 100)` with A the weight-weighted average of all
clause risk scores, `B = max(0, max clause score − A) * 0.3` and
`C = (high-or-critical count / clause count) * 20`; for an empty clause list
the overall score is 0 and the scoring breakdown is empty. -/
theorem overall_score_formula (rs : List ClauseRisk) (hne : rs ≠ []) :
    overallScore rs =
      min 100 (max 0
        ((weightedSum rs / totalWeight rs) * 0.6
          + max 0 (maxRisk rs - weightedSum rs / totalWeight rs) * 0.3
          + ((highRiskCount rs : ℚ) / (rs.length : ℚ)) * 20)) ∧
    overallScore ([] : List ClauseRisk) = 0 ∧
    (overallScoreAndBreakdown ([] : List ClauseRisk)).2 = none := by
  refine ⟨?_, rfl, rfl⟩
  unfold overallScore overallScoreAndBreakdown
  rw [if_neg hne]
  show min 100 (max 0 (preClampOverall rs)) = _
  unfold preClampOverall
  rw [maxPenalty_eq, weightedAvg_eq rs hne]
  rfl

theorem overall_score_formula_witness :
    overallScore [clauseRiskOf (sampleClause "c1" "payment_terms") none] = 30 :=
  (overall_score_formula [clauseRiskOf (sampleClause "c1" "payment_terms") none]
      (by simp)).1.trans
    (by
      simp [weightedSum, totalWeight, maxRisk, highRiskCount, clauseRiskOf,
        clauseWeight, CLAUSE_TYPE_WEIGHTS, List.find?, sampleClause,
        isHighOrCritical, List.countP, List.countP.go, beq_iff_eq]
      norm_num [show (RiskLevel.medium == RiskLevel.critical) = false from rfl,
        show (RiskLevel.medium == RiskLevel.high) = false from rfl])

theorem sum_map_sub (l : List ClauseRisk) (f g : ClauseRisk → ℚ) :
    (l.map (fun r => f r - g r)).sum = (l.map f).sum - (l.map g).sum := by
  induction l with
  | nil => simp
  | cons r t ih =>
      simp only [List.map_cons, List.sum_cons, ih]
      ring

theorem sum_eq_zero_mem {l : List ℚ} (h0 : ∀ x ∈ l, 0 ≤ x) (hs : l.sum = 0) :
    ∀ x ∈ l, x = 0 := by
  induction l with
  | nil => simp
  | cons a t ih =>
      have ha : 0 ≤ a := h0 a (List.mem_cons_self a t)
      have ht : 0 ≤ t.sum := List.sum_nonneg (fun x hx => h0 x (List.mem_cons_of_mem a hx))
      rw [List.sum_cons] at hs
      have ha0 : a = 0 := by linarith
      have hts : t.sum = 0 := by linarith
      intro x hx
      rcases List.mem_cons.mp hx with rfl | hx
      · exact ha0
      · exact ih (fun y hy => h0 y (List.mem_cons_of_mem a hy)) hts x hx

theorem weightedSum_nonneg (rs : List ClauseRisk)
    (h : ∀ r ∈ rs, 0 ≤ r.risk_score) : 0 ≤ weightedSum rs := by
  unfold weightedSum
  apply List.sum_nonneg
  intro x hx
  simp only [List.mem_map] at hx
  obtain ⟨r, hr, rfl⟩ := hx
  exact mul_nonneg (h r hr) (clauseWeight_pos _).le

theorem weightedSum_le (rs : List ClauseRisk)
    (h : ∀ r ∈ rs, r.risk_score ≤ 100) :
    weightedSum rs ≤ 100 * totalWeight rs := by
  unfold weightedSum totalWeight
  rw [← List.sum_map_mul_left]
  apply List.sum_le_sum
  intro r hr
  exact mul_le_mul_of_nonneg_right (h r hr) (clauseWeight_pos _).le

theorem weightedAvg_le_100 (rs : List ClauseRisk) (hne : rs ≠ [])
    (h : ∀ r ∈ rs, r.risk_score ≤ 100) : weightedAvg rs ≤ 100 := by
  rw [weightedAvg_eq rs hne]
  rw [div_le_iff₀ (totalWeight_pos rs hne)]
  linarith [weightedSum_le rs h]

theorem weightedAvg_nonneg (rs : List ClauseRisk) (hne : rs ≠ [])
    (h : ∀ r ∈ rs, 0 ≤ r.risk_score) : 0 ≤ weightedAvg rs := by
  rw [weightedAvg_eq rs hne]
  exact div_nonneg (weightedSum_nonneg rs h) (totalWeight_pos rs hne).le

theorem maxRisk_le (rs : List ClauseRisk) (hne : rs ≠ [])
    (h : ∀ r ∈ rs, r.risk_score ≤ 100) : maxRisk rs ≤ 100 := by
  cases rs with
  | nil => exact absurd rfl hne
  | cons r rest =>
      have aux : ∀ (l : List ClauseRisk) (init : ℚ), init ≤ 100 →
          (∀ x ∈ l, x.risk_score ≤ 100) →
          l.foldl (fun m x => max m x.risk_score) init ≤ 100 := by
        intro l
        induction l with
        | nil => intro init hi _; exact hi
        | cons b t ih =>
            intro init hi hl
            refine ih _ (max_le hi (hl b (List.mem_cons_self b t))) ?_
            intro x hx
            exact hl x (List.mem_cons_of_mem b hx)
      exact aux rest r.risk_score (h r (List.mem_cons_self r rest))
        (fun x hx => h x (List.mem_cons_of_mem r hx))

theorem density_le_one (rs : List ClauseRisk) (hne : rs ≠ []) : density rs ≤ 1 := by
  unfold density
  have hlen : (0 : ℚ) < (rs.length : ℚ) := by
    have : 0 < rs.length := List.length_pos.mpr hne
    exact_mod_cast this
  rw [div_le_one hlen]
  exact_mod_cast List.countP_le_length _

theorem density_nonneg (rs : List ClauseRisk) : 0 ≤ density rs := by
  unfold density
  positivity

theorem avg_penalty_identity (rs : List ClauseRisk) :
    weightedAvg rs * 0.6 + maxPenalty rs =
      weightedAvg rs * 0.3 + max (weightedAvg rs) (maxRisk rs) * 0.3 := by
  unfold maxPenalty
  split_ifs with h
  · rw [max_eq_right (le_of_lt h)]
    ring
  · rw [max_eq_left (le_of_not_lt h)]
    ring

/-- C10: under well-ranged clause scores the pre-clamp overall value is at
most 80, so the upper clamp at 100 never takes effect; an overall level of
critical therefore forces the overall score to be exactly 80, which happens
only when every clause scores 100 and every clause is at high/critical level
(density 1). -/
theorem overall_preclamp_bound (rs : List ClauseRisk) (hne : rs ≠ [])
    (hrange : ∀ r ∈ rs, 0 ≤ r.risk_score ∧ r.risk_score ≤ 100) :
    preClampOverall rs ≤ 80 ∧
    overallScore rs = max 0 (preClampOverall rs) ∧
    (scoreToLevel (overallScore rs) = RiskLevel.critical →
      overallScore rs = 80 ∧ (∀ r ∈ rs, r.risk_score = 100) ∧
      highRiskCount rs = rs.length ∧ density rs = 1) := by
  have h0 : ∀ r ∈ rs, 0 ≤ r.risk_score := fun r hr => (hrange r hr).1
  have h100 : ∀ r ∈ rs, r.risk_score ≤ 100 := fun r hr => (hrange r hr).2
  have hA1 : weightedAvg rs ≤ 100 := weightedAvg_le_100 rs hne h100
  have hA0 : 0 ≤ weightedAvg rs := weightedAvg_nonneg rs hne h0
  have hM1 : maxRisk rs ≤ 100 := maxRisk_le rs hne h100
  have hmax1 : max (weightedAvg rs) (maxRisk rs) ≤ 100 := max_le hA1 hM1
  have hd1 : density rs ≤ 1 := density_le_one rs hne
  have hd0 : 0 ≤ density rs := density_nonneg rs
  have hpre : preClampOverall rs =
      weightedAvg rs * 0.3 + max (weightedAvg rs) (maxRisk rs) * 0.3 +
        density rs * 20 := by
    unfold preClampOverall
    linarith [avg_penalty_identity rs]
  have hb : preClampOverall rs ≤ 80 := by
    rw [hpre]
    linarith
  have hov : overallScore rs = max 0 (preClampOverall rs) := by
    unfold overallScore overallScoreAndBreakdown
    rw [if_neg hne]
    show min 100 (max 0 (preClampOverall rs)) = _
    exact min_eq_right (max_le (by norm_num) (by linarith))
  refine ⟨hb, hov, ?_⟩
  intro hcrit
  have h80 : 80 ≤ overallScore rs := ((scoreToLevel_spec _).1).mp hcrit
  have hov80 : overallScore rs ≤ 80 := by
    rw [hov]
    exact max_le (by norm_num) hb
  have hoveq : overallScore rs = 80 := le_antisymm hov80 h80
  have hpre80 : preClampOverall rs = 80 := by
    rcases le_or_lt 0 (preClampOverall rs) with hp | hp
    · rw [hov, max_eq_right hp] at hoveq
      exact hoveq
    · rw [hov, max_eq_left (le_of_lt hp)] at hoveq
      norm_num at hoveq
  have hA : weightedAvg rs = 100 ∧ density rs = 1 := by
    rw [hpre] at hpre80
    constructor <;> linarith [le_max_left (weightedAvg rs) (maxRisk rs)]
  have hscores : ∀ r ∈ rs, r.risk_score = 100 := by
    have hW : 0 < totalWeight rs := totalWeight_pos rs hne
    have hSW : weightedSum rs = 100 * totalWeight rs := by
      have := hA.1
      rw [weightedAvg_eq rs hne, div_eq_iff (ne_of_gt hW)] at this
      linarith
    have hzero : ((rs.map (fun r => (100 - r.risk_score) * clauseWeight r.clause_type)).sum) = 0 := by
      have hexp : (rs.map (fun r => (100 - r.risk_score) * clauseWeight r.clause_type)) =
          (rs.map (fun r => 100 * clauseWeight r.clause_type -
            r.risk_score * clauseWeight r.clause_type)) := by
        apply List.map_congr_left
        intro r _
        ring
      rw [hexp, sum_map_sub rs (fun r => 100 * clauseWeight r.clause_type)
        (fun r => r.risk_score * clauseWeight r.clause_type)]
      have h1 : ((rs.map (fun r => 100 * clauseWeight r.clause_type)).sum) =
          100 * totalWeight rs := by
        unfold totalWeight
        rw [← List.sum_map_mul_left]
      have h2 : ((rs.map (fun r => r.risk_score * clauseWeight r.clause_type)).sum) =
          weightedSum rs := rfl
      rw [h1, h2, hSW]
      ring
    intro r hr
    have hmem : ((100 - r.risk_score) * clauseWeight r.clause_type) ∈
        rs.map (fun r => (100 - r.risk_score) * clauseWeight r.clause_type) :=
      List.mem_map_of_mem _ hr
    have := sum_eq_zero_mem
      (by
        intro x hx
        simp only [List.mem_map] at hx
        obtain ⟨y, hy, rfl⟩ := hx
        exact mul_nonneg (by linarith [(hrange y hy).2]) (clauseWeight_pos _).le)
      hzero _ hmem
    rcases mul_eq_zero.mp this with hz | hz
    · linarith
    · exact absurd hz (ne_of_gt (clauseWeight_pos _))
  have hcount : highRiskCount rs = rs.length := by
    have hd := hA.2
    unfold density at hd
    have hlen : ((rs.length : ℚ)) ≠ 0 := by
      have : 0 < rs.length := List.length_pos.mpr hne
      exact_mod_cast ne_of_gt (by exact_mod_cast this)
    rw [div_eq_one_iff_eq hlen] at hd
    exact_mod_cast hd
  exact ⟨hoveq, hscores, hcount, hA.2⟩

theorem overall_preclamp_bound_witness :
    preClampOverall [clauseRiskOf (sampleClause "c1" "payment_terms")
        (some (sampleAnalysis "c1" 100 1))] ≤ 80 :=
  (overall_preclamp_bound
      [clauseRiskOf (sampleClause "c1" "payment_terms")
        (some (sampleAnalysis "c1" 100 1))]
      (by simp)
      (by
        intro r hr
        simp only [List.mem_singleton] at hr
        subst hr
        constructor <;>
          · simp [clauseRiskOf, clauseWeight, CLAUSE_TYPE_WEIGHTS, List.find?,
              sampleClause, sampleAnalysis]
            norm_num)).1

/-! ## Monotonicity of the overall score in a single analysis risk score -/

/-- Pointwise relation between two analysis lists: each entry is either
unchanged or has the same clause id and confidence (non-negative), with a
risk score that did not decrease. -/
def AnalysisLE (a b : ComplianceAnalysis) : Prop :=
  a = b ∨ (a.clause_id = b.clause_id ∧ a.confidence = b.confidence ∧
    0 ≤ a.confidence ∧ a.risk_score ≤ b.risk_score)

theorem AnalysisLE.clause_id_eq {a b : ComplianceAnalysis} (h : AnalysisLE a b) :
    a.clause_id = b.clause_id := by
  rcases h with rfl | h
  · rfl
  · exact h.1

/-- Pointwise relation between two clause-risk lists: same clause type, a
non-decreasing risk score, and each side stores the classifier of its score. -/
def RiskLE (x y : ClauseRisk) : Prop :=
  x.clause_type = y.clause_type ∧ x.risk_score ≤ y.risk_score ∧
  x.risk_level = scoreToLevel x.risk_score ∧ y.risk_level = scoreToLevel y.risk_score

/-- Relation between the two lookup results under `AnalysisLE` inputs. -/
def OptAnalysisLE (o₁ o₂ : Option ComplianceAnalysis) : Prop :=
  (o₁ = none ∧ o₂ = none) ∨
  (∃ a₁ a₂, o₁ = some a₁ ∧ o₂ = some a₂ ∧ AnalysisLE a₁ a₂)

theorem lookupAnalysis_rel (cid : String) {as₁ as₂ : List ComplianceAnalysis}
    (h : List.Forall₂ AnalysisLE as₁ as₂) :
    OptAnalysisLE (lookupAnalysis as₁ cid) (lookupAnalysis as₂ cid) := by
  have aux : ∀ {l₁ l₂ : List ComplianceAnalysis}, List.Forall₂ AnalysisLE l₁ l₂ →
      ∀ {acc₁ acc₂ : Option ComplianceAnalysis}, OptAnalysisLE acc₁ acc₂ →
      OptAnalysisLE
        (l₁.foldl (fun acc a => if a.clause_id = cid then some a else acc) acc₁)
        (l₂.foldl (fun acc a => if a.clause_id = cid then some a else acc) acc₂) := by
    intro l₁ l₂ hf
    induction hf with
    | nil => intro acc₁ acc₂ hacc; exact hacc
    | @cons x y t₁ t₂ hxy htl ih =>
        intro acc₁ acc₂ hacc
        simp only [List.foldl_cons]
        by_cases hid : x.clause_id = cid
        · have hid2 : y.clause_id = cid := hxy.clause_id_eq ▸ hid
          rw [if_pos hid, if_pos hid2]
          exact ih (Or.inr ⟨x, y, rfl, rfl, hxy⟩)
        · have hid2 : ¬ y.clause_id = cid := hxy.clause_id_eq ▸ hid
          rw [if_neg hid, if_neg hid2]
          exact ih hacc
  exact aux h (Or.inl ⟨rfl, rfl⟩)

theorem clauseRiskOf_riskLE (c : ExtractedClause)
    {o₁ o₂ : Option ComplianceAnalysis} (h : OptAnalysisLE o₁ o₂) :
    RiskLE (clauseRiskOf c o₁) (clauseRiskOf c o₂) := by
  rcases h with ⟨rfl, rfl⟩ | ⟨a₁, a₂, rfl, rfl, hle⟩
  · exact ⟨rfl, le_refl _, clauseRiskOf_level c none, clauseRiskOf_level c none⟩
  · refine ⟨rfl, ?_, clauseRiskOf_level c (some a₁), clauseRiskOf_level c (some a₂)⟩
    rcases hle with rfl | ⟨-, hconf, hconf0, hscore⟩
    · exact le_refl _
    · show min 100 (a₁.risk_score * clauseWeight c.clause_type) *
          (0.5 + a₁.confidence * 0.5) ≤
        min 100 (a₂.risk_score * clauseWeight c.clause_type) *
          (0.5 + a₂.confidence * 0.5)
      rw [← hconf]
      have hf : (0 : ℚ) ≤ 0.5 + a₁.confidence * 0.5 := by linarith
      refine mul_le_mul_of_nonneg_right (min_le_min (le_refl _) ?_) hf
      exact mul_le_mul_of_nonneg_right hscore (clauseWeight_pos _).le

theorem calcRisks_forall₂ (cls : List ExtractedClause)
    {as₁ as₂ : List ComplianceAnalysis} (h : List.Forall₂ AnalysisLE as₁ as₂) :
    List.Forall₂ RiskLE (calculateClauseRisks cls as₁) (calculateClauseRisks cls as₂) := by
  induction cls with
  | nil => exact List.Forall₂.nil
  | cons c t ih =>
      exact List.Forall₂.cons
        (clauseRiskOf_riskLE c (lookupAnalysis_rel c.clause_id h)) ih

theorem totalWeight_eq_of_forall₂ {rs₁ rs₂ : List ClauseRisk}
    (h : List.Forall₂ RiskLE rs₁ rs₂) : totalWeight rs₁ = totalWeight rs₂ := by
  unfold totalWeight
  induction h with
  | nil => rfl
  | @cons x y t₁ t₂ hxy htl ih =>
      simp only [List.map_cons, List.sum_cons, hxy.1, ih]

theorem weightedSum_mono {rs₁ rs₂ : List ClauseRisk}
    (h : List.Forall₂ RiskLE rs₁ rs₂) : weightedSum rs₁ ≤ weightedSum rs₂ := by
  unfold weightedSum
  induction h with
  | nil => exact le_refl _
  | @cons x y t₁ t₂ hxy htl ih =>
      simp only [List.map_cons, List.sum_cons, hxy.1]
      exact add_le_add
        (mul_le_mul_of_nonneg_right hxy.2.1 (clauseWeight_pos _).le) ih

theorem weightedAvg_mono {rs₁ rs₂ : List ClauseRisk}
    (h : List.Forall₂ RiskLE rs₁ rs₂) : weightedAvg rs₁ ≤ weightedAvg rs₂ := by
  unfold weightedAvg
  rw [totalWeight_eq_of_forall₂ h]
  split_ifs with hw
  · exact (div_le_div_iff_of_pos_right hw).mpr (weightedSum_mono h)
  · exact le_refl 0

theorem foldl_max_mono {l₁ l₂ : List ClauseRisk}
    (h : List.Forall₂ RiskLE l₁ l₂) :
    ∀ {i₁ i₂ : ℚ}, i₁ ≤ i₂ →
      l₁.foldl (fun m x => max m x.risk_score) i₁ ≤
        l₂.foldl (fun m x => max m x.risk_score) i₂ := by
  induction h with
  | nil => intro i₁ i₂ hi; exact hi
  | @cons x y t₁ t₂ hxy htl ih =>
      intro i₁ i₂ hi
      exact ih (max_le_max hi hxy.2.1)

theorem maxRisk_mono {rs₁ rs₂ : List ClauseRisk}
    (h : List.Forall₂ RiskLE rs₁ rs₂) : maxRisk rs₁ ≤ maxRisk rs₂ := by
  cases h with
  | nil => exact le_refl _
  | @cons x y t₁ t₂ hxy htl => exact foldl_max_mono htl hxy.2.1

theorem highRiskCount_mono {rs₁ rs₂ : List ClauseRisk}
    (h : List.Forall₂ RiskLE rs₁ rs₂) : highRiskCount rs₁ ≤ highRiskCount rs₂ := by
  unfold highRiskCount
  induction h with
  | nil => exact le_refl _
  | @cons x y t₁ t₂ hxy htl ih =>
      simp only [List.countP_cons]
      obtain ⟨-, hs, hl₁, hl₂⟩ := hxy
      by_cases hx : isHighOrCritical x.risk_level = true
      · have h60 : (60 : ℚ) ≤ x.risk_score :=
          (isHighOrCritical_scoreToLevel x.risk_score).mp (hl₁ ▸ hx)
        have hy : isHighOrCritical y.risk_level = true := by
          rw [hl₂]
          exact (isHighOrCritical_scoreToLevel y.risk_score).mpr (le_trans h60 hs)
        rw [hx, hy]
        omega
      · rw [Bool.not_eq_true] at hx
        rw [hx]
        by_cases hy : isHighOrCritical y.risk_level <;> simp [hy] <;> omega

theorem overallScore_mono {rs₁ rs₂ : List ClauseRisk}
    (h : List.Forall₂ RiskLE rs₁ rs₂) : overallScore rs₁ ≤ overallScore rs₂ := by
  have hlen := h.length_eq
  by_cases hne : rs₁ = []
  · subst hne
    cases h
    exact le_refl _
  · have hne₂ : rs₂ ≠ [] := by
      intro h2
      subst h2
      exact hne (List.length_eq_zero.mp hlen)
    have hA := weightedAvg_mono h
    have hM := maxRisk_mono h
    have hmax : max (weightedAvg rs₁) (maxRisk rs₁) ≤
        max (weightedAvg rs₂) (maxRisk rs₂) := max_le_max hA hM
    have hd : density rs₁ ≤ density rs₂ := by
      unfold density
      rw [← hlen]
      have hlenpos : (0 : ℚ) < (rs₁.length : ℚ) := by
        have : 0 < rs₁.length := List.length_pos.mpr hne
        exact_mod_cast this
      exact (div_le_div_iff_of_pos_right hlenpos).mpr
        (by exact_mod_cast highRiskCount_mono h)
    have hpre : preClampOverall rs₁ ≤ preClampOverall rs₂ := by
      unfold preClampOverall
      have h₁ := avg_penalty_identity rs₁
      have h₂ := avg_penalty_identity rs₂
      linarith
    unfold overallScore overallScoreAndBreakdown
    rw [if_neg hne, if_neg hne₂]
    exact min_le_min (le_refl _) (max_le_max (le_refl _) hpre)

theorem forall₂_analysisLE_set (l : List ComplianceAnalysis) (k : Nat)
    (hk : k < l.length) (a' : ComplianceAnalysis)
    (hrel : AnalysisLE (l.get ⟨k, hk⟩) a') :
    List.Forall₂ AnalysisLE l (l.set k a') := by
  induction l generalizing k with
  | nil => exact absurd hk (Nat.not_lt_zero k)
  | cons x t ih =>
      cases k with
      | zero =>
          exact List.Forall₂.cons hrel
            (List.forall₂_same.mpr (fun y _ => Or.inl rfl))
      | succ n =>
          have hn : n < t.length := Nat.lt_of_succ_lt_succ hk
          exact List.Forall₂.cons (Or.inl rfl) (ih n hn hrel)

/-- C7: raising the compliance risk score of one analysis (holding everything
else fixed, with that analysis having a non-negative confidence) never
decreases the overall contract score of the report. -/
theorem overall_monotone_in_clause_score (docid : String)
    (clauses : List ExtractedClause) (analyses : List ComplianceAnalysis)
    (k : Nat) (hk : k < analyses.length) (s' : ℚ)
    (hconf : 0 ≤ (analyses.get ⟨k, hk⟩).confidence)
    (hs : (analyses.get ⟨k, hk⟩).risk_score ≤ s') :
    (calculateRiskReport docid clauses analyses).overall_risk_score ≤
      (calculateRiskReport docid clauses
        (analyses.set k
          { analyses.get ⟨k, hk⟩ with risk_score := s' })).overall_risk_score := by
  have hrel : AnalysisLE (analyses.get ⟨k, hk⟩)
      { analyses.get ⟨k, hk⟩ with risk_score := s' } :=
    Or.inr ⟨rfl, rfl, hconf, hs⟩
  have hf := forall₂_analysisLE_set analyses k hk _ hrel
  exact overallScore_mono (calcRisks_forall₂ clauses hf)

theorem overall_monotone_in_clause_score_witness :
    (calculateRiskReport "doc" [sampleClause "c1" "payment_terms"]
        [sampleAnalysis "c1" 40 1]).overall_risk_score ≤
      (calculateRiskReport "doc" [sampleClause "c1" "payment_terms"]
        (([sampleAnalysis "c1" 40 1]).set 0
          { ([sampleAnalysis "c1" 40 1]).get ⟨0, by simp⟩ with
              risk_score := 90 })).overall_risk_score :=
  overall_monotone_in_clause_score "doc" [sampleClause "c1" "payment_terms"]
    [sampleAnalysis "c1" 40 1] 0 (by simp) 90
    (by norm_num [List.get, sampleAnalysis])
    (by norm_num [List.get, sampleAnalysis])

/-! ## The stable descending sort used for top risks and category order -/

theorem filter_orderedInsert {α : Type} (key : α → ℚ) (q : ℚ) (x : α)
    (l : List α) :
    (List.orderedInsert (scoreDescRel key) x l).filter
        (fun y => decide (key y = q)) =
      if key x = q then x :: l.filter (fun y => decide (key y = q))
      else l.filter (fun y => decide (key y = q)) := by
  induction l with
  | nil =>
      by_cases hx : key x = q <;>
        simp [List.orderedInsert, hx]
  | cons b t ih =>
      by_cases hxb : scoreDescRel key x b
      · rw [List.orderedInsert, if_pos hxb]
        by_cases hx : key x = q <;> simp [List.filter_cons, hx]
      · rw [List.orderedInsert, if_neg hxb]
        have hlt : key x < key b := lt_of_not_le hxb
        by_cases hx : key x = q
        · have hbq : ¬ key b = q := by
            rw [← hx]
            exact ne_of_gt hlt
          simp [List.filter_cons, hbq, ih, hx]
        · by_cases hb : key b = q <;> simp [List.filter_cons, hb, ih, hx]

theorem filter_insertionSort {α : Type} (key : α → ℚ) (q : ℚ) (l : List α) :
    (List.insertionSort (scoreDescRel key) l).filter
        (fun y => decide (key y = q)) =
      l.filter (fun y => decide (key y = q)) := by
  induction l with
  | nil => rfl
  | cons a t ih =>
      rw [List.insertionSort,
        filter_orderedInsert key q a (List.insertionSort (scoreDescRel key) t)]
      by_cases hx : key a = q <;> simp [List.filter_cons, hx, ih]

/-- The embedding of `sorted(..., key=..., reverse=True)` is a stable
descending sort: it permutes its input, is sorted descending by the key, and
preserves the relative order of key-tied elements (its restriction to any
single key value equals the restriction of the input). -/
theorem stableSortDesc_spec {α : Type} (key : α → ℚ) (l : List α) :
    (List.insertionSort (scoreDescRel key) l).Perm l ∧
    List.Sorted (fun a b => key b ≤ key a)
      (List.insertionSort (scoreDescRel key) l) ∧
    ∀ q : ℚ, (List.insertionSort (scoreDescRel key) l).filter
        (fun y => decide (key y = q)) =
      l.filter (fun y => decide (key y = q)) := by
  refine ⟨List.perm_insertionSort _ l, ?_, fun q => filter_insertionSort key q l⟩
  have h := List.sorted_insertionSort (scoreDescRel key) l
  exact h

/-- C8: the top-risks list of every report is the first 5 elements of the full
clause-risk list under the stable descending sort by risk score (a
permutation, sorted descending, ties keeping original order), and the
category-risk list is the stable descending sort by category score of the
categories in encounter order. -/
theorem report_sorting (d : String) (cls : List ExtractedClause)
    (ans : List ComplianceAnalysis) :
    (calculateRiskReport d cls ans).top_risks =
      (List.insertionSort (scoreDescRel ClauseRisk.risk_score)
        (calculateRiskReport d cls ans).all_clause_risks).take 5 ∧
    (∀ rs : List ClauseRisk,
      (List.insertionSort (scoreDescRel ClauseRisk.risk_score) rs).Perm rs ∧
      List.Sorted (fun a b => ClauseRisk.risk_score b ≤ ClauseRisk.risk_score a)
        (List.insertionSort (scoreDescRel ClauseRisk.risk_score) rs) ∧
      ∀ q : ℚ, (List.insertionSort (scoreDescRel ClauseRisk.risk_score) rs).filter
          (fun r => decide (r.risk_score = q)) =
        rs.filter (fun r => decide (r.risk_score = q))) ∧
    (calculateRiskReport d cls ans).category_risks =
      List.insertionSort (scoreDescRel CategoryRisk.risk_score)
        ((categoryOrder (calculateClauseRisks cls ans)).map
          (categoryRiskFor (calculateClauseRisks cls ans))) ∧
    (∀ cs : List CategoryRisk,
      (List.insertionSort (scoreDescRel CategoryRisk.risk_score) cs).Perm cs ∧
      List.Sorted (fun a b => CategoryRisk.risk_score b ≤ CategoryRisk.risk_score a)
        (List.insertionSort (scoreDescRel CategoryRisk.risk_score) cs) ∧
      ∀ q : ℚ, (List.insertionSort (scoreDescRel CategoryRisk.risk_score) cs).filter
          (fun c => decide (c.risk_score = q)) =
        cs.filter (fun c => decide (c.risk_score = q))) :=
  ⟨rfl, fun rs => stableSortDesc_spec ClauseRisk.risk_score rs, rfl,
    fun cs => stableSortDesc_spec CategoryRisk.risk_score cs⟩

/-! ## Citation collection refines the stable first-occurrence deduplication -/

theorem collectCitations_eq_flatten (analyses : List ComplianceAnalysis) :
    collectCitations analyses =
      (((analyses.map ComplianceAnalysis.matched_regulations).flatten).foldl
        citationStep ([], [])).2 := by
  unfold collectCitations
  rw [List.foldl_flatten, List.foldl_map]

theorem citations_fold_spec (regs : List RetrievedContext) :
    ∀ (seen : List String) (acc : List Citation),
      regs.foldl citationStep (seen, acc) =
        (seen ++ (dedupByFirst (fun r => r.regulation_id)
            (regs.filter (fun r => decide (r.regulation_id ∉ seen)))).map
            (fun r => r.regulation_id),
          acc ++ (dedupByFirst (fun r => r.regulation_id)
            (regs.filter (fun r => decide (r.regulation_id ∉ seen)))).map
            mkCitation) := by
  induction regs with
  | nil => intro seen acc; simp [dedupByFirst]
  | cons r t ih =>
      intro seen acc
      rw [List.foldl_cons]
      by_cases hmem : r.regulation_id ∈ seen
      · have hstep : citationStep (seen, acc) r = (seen, acc) := by
          unfold citationStep
          rw [if_pos hmem]
        rw [hstep, ih seen acc]
        have hfilter : (r :: t).filter (fun x => decide (x.regulation_id ∉ seen)) =
            t.filter (fun x => decide (x.regulation_id ∉ seen)) := by
          rw [List.filter_cons_of_neg]
          simp [hmem]
        rw [hfilter]
      · have hstep : citationStep (seen, acc) r =
            (seen ++ [r.regulation_id], acc ++ [mkCitation r]) := by
          unfold citationStep
          rw [if_neg hmem]
        rw [hstep, ih (seen ++ [r.regulation_id]) (acc ++ [mkCitation r])]
        have hfilter : (r :: t).filter (fun x => decide (x.regulation_id ∉ seen)) =
            r :: t.filter (fun x => decide (x.regulation_id ∉ seen)) := by
          rw [List.filter_cons_of_pos]
          simp [hmem]
        rw [hfilter]
        have hdedup : dedupByFirst (fun x => x.regulation_id)
            (r :: t.filter (fun x => decide (x.regulation_id ∉ seen))) =
            r :: dedupByFirst (fun x => x.regulation_id)
              (t.filter (fun x => decide (x.regulation_id ∉ seen ++ [r.regulation_id]))) := by
          rw [dedupByFirst]
          congr 1
          rw [List.filter_filter]
          congr 1
          apply List.filter_congr
          intro x _
          simp only [List.mem_append, List.mem_singleton, decide_not,
            Bool.decide_or, Bool.not_or]
          rw [Bool.and_comm]
        rw [hdedup]
        simp [List.append_assoc]

/-- C9: the citation list of the engine equals the specification description:
flatten all matched regulations of all findings in input order, keep only the
first occurrence of each regulation identifier, and keep for each one its
identifier, title, source locator and regulation type. -/
theorem collectCitations_spec (analyses : List ComplianceAnalysis) :
    collectCitations analyses = citationsViaSpec analyses ∧
    (∀ reg : RetrievedContext, mkCitation reg =
      ⟨reg.regulation_id, reg.title, reg.source_url, reg.regulation_type⟩) := by
  refine ⟨?_, fun reg => rfl⟩
  rw [collectCitations_eq_flatten, citations_fold_spec]
  unfold citationsViaSpec
  have hfilter : ((analyses.map ComplianceAnalysis.matched_regulations).flatten).filter
      (fun r => decide (r.regulation_id ∉ ([] : List String))) =
      (analyses.map ComplianceAnalysis.matched_regulations).flatten := by
    apply List.filter_eq_self.mpr
    intro a _
    simp
  rw [hfilter]
  simp

end LawVisor
